import Mathlib

/-!
Verification development for the ultrasound frame pre-processing tool
(`UltrasoundProcessing.py`).  The mutable application state (frame list,
filename list, in-memory copy of the `data.txt` ledger, duplicate list,
operations gate) and the batch operations on it (duplicate detection,
duplicate removal with renumbering, ROI clipping, vertical flip, frame
loading, navigation) are embedded as executable Lean definitions.

Filenames and ledger rows are modelled as `List Char`, matching the
Python string manipulation (`split('-', 1)`, `split('.', 1)`,
`split(',', 1)`) character for character.  Images are modelled as
`Grid := List (List Nat)` (a row-major intensity grid); the external
collaborators `cv2.cvtColor`/`structural_similarity` are passed in as
function parameters, and numpy slicing `img[top:bottom, left:right]`
(for non-negative bounds) is modelled by `npSlice`.
-/

/-- Characters before the first occurrence of `c`; the whole list when `c`
is absent.  Models Python `s.split(c, 1)[0]`. -/
def split1Before (c : Char) : List Char → List Char
  | [] => []
  | a :: s => if a = c then [] else a :: split1Before c s

/-- Characters after the first occurrence of `c`, or `none` when `c` is
absent.  Models Python `s.split(c, 1)[1]`, which raises `IndexError`
(here: `none`) when the separator does not occur. -/
def split1After (c : Char) : List Char → Option (List Char)
  | [] => none
  | a :: s => if a = c then some s else split1After c s

/-- The decimal digit character for `n < 10` (used by `natDigits`). -/
def natDigitChar : Nat → Char
  | 0 => '0'
  | 1 => '1'
  | 2 => '2'
  | 3 => '3'
  | 4 => '4'
  | 5 => '5'
  | 6 => '6'
  | 7 => '7'
  | 8 => '8'
  | 9 => '9'
  | _ => '0'

/-- Fuelled core of the decimal rendering of a natural number. -/
def natDigitsCore : Nat → Nat → List Char → List Char
  | 0, _, acc => acc
  | fuel + 1, n, acc =>
    if n < 10 then natDigitChar n :: acc
    else natDigitsCore fuel (n / 10) (natDigitChar (n % 10) :: acc)

/-- Decimal rendering of a natural number, modelling Python `str(i)` as it
appears in the f-strings that rebuild filenames and ledger rows. -/
def natDigits (n : Nat) : List Char := natDigitsCore (n + 1) n []

/-- An in-memory image: a row-major grid of intensities. -/
abbrev Grid := List (List Nat)

/-- Numpy slicing `img[top:bottom, left:right]` for non-negative bounds:
out-of-range and empty (`top >= bottom`) slices clamp, never fail. -/
def npSlice (top bottom left right : Nat) (g : Grid) : Grid :=
  ((g.drop top).take (bottom - top)).map fun row => (row.drop left).take (right - left)

/-- The single-channel comparison image built at the top of each loop of
`check_for_duplicates`: `cv2.cvtColor(frame, COLOR_BGR2GRAY)` (the
collaborator `toGray`) followed, when the reduced-ROI box is ticked, by
the slice `img[top:bottom, left:right]`. -/
def prepFrame (toGray : Grid → Grid) (reduced : Bool) (top bottom left right : Nat)
    (g : Grid) : Grid :=
  if reduced then npSlice top bottom left right (toGray g) else toGray g

/-- The inner loop of `check_for_duplicates` over the index list `js`
(in the source: `for j in range(i + 1, i + window + 1)`): indices past the
end of `names` are skipped, and the first `j` whose similarity score
against frame `i` is exactly 1 is returned (the source `break`s there). -/
def findDupInner (score : Nat → Nat → ℚ) (nNames : Nat) (i : Nat) : List Nat → Option Nat
  | [] => none
  | j :: js =>
    if j < nNames then
      if score i j = 1 then some j else findDupInner score nNames i js
    else findDupInner score nNames i js

/-- The duplicate scan of `check_for_duplicates`: for each frame index
`i` in `range(0, len(frames) - 1)` scan the window `i+1 .. i+window` and
record the name pair of the first perfect match, if any. -/
def dupScan (score : Nat → Nat → ℚ) (window : Nat) (frames : List Grid)
    (names : List (List Char)) : List (List Char × List Char) :=
  (List.range (frames.length - 1)).flatMap fun i =>
    match findDupInner score names.length i (List.range' (i + 1) window) with
    | some j => [(names.getD i [], names.getD j [])]
    | none => []

/-- The similarity score the source computes for the pair `(i, j)`:
`structural_similarity` (the collaborator `ssim`) on the two prepared
single-channel, optionally ROI-restricted images. -/
def frameScore (ssim : Grid → Grid → ℚ) (toGray : Grid → Grid) (reduced : Bool)
    (top bottom left right : Nat) (frames : List Grid) (i j : Nat) : ℚ :=
  ssim (prepFrame toGray reduced top bottom left right (frames.getD i []))
    (prepFrame toGray reduced top bottom left right (frames.getD j []))

/-- `check_for_duplicates` (the pure candidate computation): the windowed
scan run with the source's pairwise score. -/
def checkForDuplicates (ssim : Grid → Grid → ℚ) (toGray : Grid → Grid) (reduced : Bool)
    (top bottom left right window : Nat) (frames : List Grid)
    (names : List (List Char)) : List (List Char × List Char) :=
  dupScan (frameScore ssim toGray reduced top bottom left right frames) window frames names

/-- One iteration of the deletion loop of `remove_duplicates` for the
candidate pair `dup`.  The source scans the ledger rows for the first row
whose field before the first comma equals the later filename's stem
(`duplicate[1].split('.', 1)[0]`); on a hit it deletes the image file
(`os.remove`, which raises — modelled as `none` — when the file is
absent) and removes that row, then breaks; with no hit the candidate is
left alone and the loop simply moves on. -/
def processDuplicate (dup : List Char × List Char) (disk data : List (List Char)) :
    Option (List (List Char) × List (List Char)) :=
  match data.find? (fun row => decide (split1Before ',' row = split1Before '.' dup.2)) with
  | none => some (disk, data)
  | some row =>
    if dup.2 ∈ disk then some (disk.erase dup.2, data.erase row) else none

/-- The whole deletion phase of `remove_duplicates`: the candidates are
processed in detection order; `none` models an uncaught `os.remove`
exception aborting the method. -/
def deletePhase : List (List Char × List Char) → List (List Char) → List (List Char) →
    Option (List (List Char) × List (List Char))
  | [], disk, data => some (disk, data)
  | d :: ds, disk, data =>
    match processDuplicate d disk data with
    | none => none
    | some (disk2, data2) => deletePhase ds disk2 data2

/-- The renumbering pass of `remove_duplicates`, shared by the file-rename
loop (`f"{i}-{name.split('-', 1)[1]}"`) and the ledger rewrite
(`f"{i}-{row.split('-', 1)[1]}"`): each entry in order is rebuilt as the
1-based counter, a dash, and everything after the entry's first dash.
`none` models the `IndexError` Python raises when an entry has no dash. -/
def renumberFrom : Nat → List (List Char) → Option (List (List Char))
  | _, [] => some []
  | i, x :: xs =>
    match split1After '-' x, renumberFrom (i + 1) xs with
    | some rest, some ys => some ((natDigits i ++ '-' :: rest) :: ys)
    | _, _ => none

/-- Events observable on the shared state and the disk, used to model the
order of the side effects inside the batch operations. -/
inductive Ev
  | gateOff
  | gateOn
  | reload
  | writeFrame
  | deleteFile
  | renameFile
  | writeLedger
  | errorNote
  deriving DecidableEq

/-- The tail of `load_frames`: the method re-reads the directory and the
frame files (resynchronising memory with disk) and finally sets
`enable_operations = True`. -/
def loadFramesTrace : List Ev := [Ev.reload, Ev.gateOn]

/-- Side-effect trace of `remove_duplicates`: the gate is cleared first;
if any deletion raises, the method aborts (nothing further runs); on the
no-exception path the deletions, renames and full ledger rewrite happen
(only when the candidate list is non-empty), then the gate is set back to
`True` and only then `load_frames` is called. -/
def removeDuplicatesTrace (dups : List (List Char × List Char))
    (disk data : List (List Char)) : List Ev :=
  Ev.gateOff :: match deletePhase dups disk data with
  | none => []
  | some (disk2, _) =>
    (if dups.isEmpty then [] else
      List.replicate (disk.length - disk2.length) Ev.deleteFile ++
        List.replicate disk2.length Ev.renameFile ++ [Ev.writeLedger]) ++
      Ev.gateOn :: loadFramesTrace

/-- Side-effect trace of `clip_frames`: gate cleared; when frames are
loaded, the four ROI inputs are parsed (`int(...)`); a parse failure is
caught by the blanket handler which only prints a note; on the success
path every frame file is overwritten in place, then `load_frames` and
`update_data_file` run; the gate is set back to `True` in every case. -/
def clipFramesTrace (hasFrames : Bool) (ints : Option (Nat × Nat × Nat × Nat))
    (nNames : Nat) : List Ev :=
  Ev.gateOff ::
    ((if hasFrames then
        match ints with
        | some _ => List.replicate nNames Ev.writeFrame ++ loadFramesTrace ++ [Ev.writeLedger]
        | none => [Ev.errorNote]
      else []) ++ [Ev.gateOn])

/-- Side-effect trace of `flip`: gate cleared; with frames present every
file is rewritten flipped and `load_frames` runs; otherwise only a note
is printed; the gate is set back to `True` in every case. -/
def flipTrace (nNames : Nat) : List Ev :=
  Ev.gateOff ::
    ((if 0 < nNames then List.replicate nNames Ev.writeFrame ++ loadFramesTrace
      else [Ev.errorNote]) ++ [Ev.gateOn])

/-- The mutable fields of the `UltrasoundProcessing` object that the
operations read and write (`__init__` lines 29-37). -/
structure AppState where
  names : List (List Char)
  frames : List Grid
  data : List (List Char)
  index : Int
  duplicates : List (List Char × List Char)
  enableOps : Bool
  deriving DecidableEq

/-- The state effect of `check_for_duplicates`: the method clears the
gate, re-reads `data.txt` from disk into `self.data`, resets and refills
`self.duplicates` with the scan result, and sets the gate back to `True`;
`names`, `frames` and `index` are not assigned. -/
def checkForDuplicatesRun (ssim : Grid → Grid → ℚ) (toGray : Grid → Grid) (reduced : Bool)
    (top bottom left right window : Nat) (diskData : List (List Char))
    (s : AppState) : AppState :=
  { s with
    data := diskData,
    duplicates :=
      checkForDuplicates ssim toGray reduced top bottom left right window s.frames s.names,
    enableOps := true }

/-- The disk effect of the clipping loop of `clip_frames`: for each name
in order, the file is decoded, sliced to `[top:bottom, left:right]` and
written back in place over the same name.  `cv2.imread`/`cv2.imwrite`
are modelled through the spec's collaborator contract
`decode(path) -> Grid` / `encode(Grid, path)`, which has no failure
mode, so the disk is a total map from name to grid. -/
def clipFramesDisk (top bottom left right : Nat) (names : List (List Char))
    (disk : List Char → Grid) : List Char → Grid :=
  match names with
  | [] => disk
  | n :: ns =>
    clipFramesDisk top bottom left right ns
      (Function.update disk n (npSlice top bottom left right (disk n)))

/-- The frame-decoding loop of `load_frames` (lines 449-452): each file is
decoded and converted; `cv2.imread` returns `None` on a corrupt file
(the collaborator `decode` returns `none`) and the following
`cv2.cvtColor` then raises, so the whole loop — and with it the load —
aborts at the first undecodable file.  There is no per-file handler. -/
def loadFramesLoop (decode : List Char → Option Grid) :
    List (List Char) → Except (List Char) (List Grid)
  | [] => .ok []
  | n :: ns =>
    match decode n with
    | none => .error n
    | some g =>
      match loadFramesLoop decode ns with
      | .error e => .error e
      | .ok gs => .ok (g :: gs)

/-- The ways the summary line of `load_frames` (lines 454-461) can raise
before the load completes. -/
inductive LoadFailure
  | emptyListing
  | zeroDuration
  | badNumber
  deriving DecidableEq

/-- Decimal parse of a digit character, or `none`. -/
def digitVal (c : Char) : Option Nat :=
  if 48 ≤ c.toNat ∧ c.toNat ≤ 57 then some (c.toNat - 48) else none

/-- Accumulator loop of `parseDigits`. -/
def parseDigitsAux (acc : Nat) : List Char → Option Nat
  | [] => some acc
  | c :: cs =>
    match digitVal c with
    | none => none
    | some d => parseDigitsAux (10 * acc + d) cs

/-- Python `int(s)` restricted to the digit strings the filenames carry:
`none` (a `ValueError`) on an empty or non-digit string. -/
def parseDigits : List Char → Option Nat
  | [] => none
  | c :: cs => parseDigitsAux 0 (c :: cs)

/-- The timestamp a filename embeds, as read on line 454:
`int(name.split('.', 1)[0].split('-', 1)[1])`. -/
def frameTimestamp (name : List Char) : Option Nat :=
  (split1After '-' (split1Before '.' name)).bind parseDigits

/-- The summary computation at the end of `load_frames` (lines 454-461):
`names[-1]` on an empty listing raises `IndexError`; the duration is the
difference of the last and first embedded timestamps; the FPS text then
divides by the duration, raising `ZeroDivisionError` when it is zero. -/
def loadSummary (names : List (List Char)) : Except LoadFailure Int :=
  match names with
  | [] => .error .emptyListing
  | n0 :: rest =>
    match frameTimestamp (List.getLastD rest n0), frameTimestamp n0 with
    | some tLast, some tFirst =>
      let duration : Int := (tLast : Int) - (tFirst : Int)
      if duration = 0 then .error .zeroDuration
      else .ok (((n0 :: rest).length * 1000 : Int) / duration)
    | _, _ => .error .badNumber

/-- The two navigation keys. -/
inductive NavCmd
  | navUp
  | navDown
  deriving DecidableEq

/-- `navigate` (lines 474-488): step the index and wrap it round at the
two ends of the frame list. -/
def navigate (nFrames : Nat) (index : Int) (cmd : NavCmd) : Int :=
  let idx : Int := match cmd with
    | .navDown => index - 1
    | .navUp => index + 1
  if idx < 0 then (nFrames : Int) + idx
  else if idx > (nFrames : Int) - 1 then idx - (nFrames : Int)
  else idx

/-- The user events the main loop (lines 101-139) dispatches on. -/
inductive UiEvent
  | navKeyUp
  | navKeyDown
  | dupCheck
  | showDup
  | removeDup
  | flipBtn
  | plotBtn
  | clipBtn
  | dataBtn
  | roiEnter
  | roiToggle
  | loadPath
  deriving DecidableEq

/-- The entry points that mutate the on-disk frame set or ledger. -/
def isMutating : UiEvent → Bool
  | .removeDup => true
  | .flipBtn => true
  | .clipBtn => true
  | .dataBtn => true
  | _ => false

/-- The dispatch guard of the main event loop: every handler except the
folder-selection load requires `enable_operations`, and the two
duplicate buttons additionally require a non-empty duplicate list. -/
def dispatchAllowed (gate : Bool) (nDups : Nat) : UiEvent → Bool
  | .navKeyUp => gate
  | .navKeyDown => gate
  | .dupCheck => gate
  | .showDup => decide (0 < nDups) && gate
  | .removeDup => decide (0 < nDups) && gate
  | .flipBtn => gate
  | .plotBtn => gate
  | .clipBtn => gate
  | .dataBtn => gate
  | .roiEnter => gate
  | .roiToggle => gate
  | .loadPath => true

/-- C10: for every loaded frame set with n >= 1 frames and current index
in [0, n), a single navigate step in either direction keeps the index in
[0, n): decrementing from index 0 wraps to n-1 and incrementing from
index n-1 wraps to 0. -/
theorem navigate_wraps (n : Nat) (idx : Int) (cmd : NavCmd)
    (hn : 1 ≤ n) (h0 : 0 ≤ idx) (hlt : idx < (n : Int)) :
    (0 ≤ navigate n idx cmd ∧ navigate n idx cmd < (n : Int)) ∧
    (idx = 0 → navigate n idx NavCmd.navDown = (n : Int) - 1) ∧
    (idx = (n : Int) - 1 → navigate n idx NavCmd.navUp = 0) := by
  have hn' : (1 : Int) ≤ (n : Int) := by exact_mod_cast hn
  refine ⟨?_, ?_, ?_⟩
  · cases cmd <;> simp only [navigate] <;> split_ifs <;> omega
  · intro h
    subst h
    simp only [navigate]
    split_ifs <;> omega
  · intro h
    subst h
    simp only [navigate]
    split_ifs <;> omega

theorem navigate_wraps_holds :
    (1 ≤ 3 ∧ (0 : Int) ≤ 0 ∧ (0 : Int) < ((3 : Nat) : Int)) ∧
    navigate 3 0 NavCmd.navDown = ((3 : Nat) : Int) - 1 :=
  ⟨⟨by decide, by decide, by decide⟩,
    (navigate_wraps 3 0 NavCmd.navDown (by decide) (by decide) (by decide)).2.1 rfl⟩

/-- C9: the load is partial at its public interface: an empty listing
makes line 454 index the last element of an empty list
(`IndexError`), and equal first and last timestamps (for example a
single frame) make the FPS computation on line 460 divide by zero;
both raise before the load completes. -/
theorem load_summary_partial (n0 : List Char) (rest : List (List Char)) (t : Nat)
    (hfirst : frameTimestamp n0 = some t)
    (hlast : frameTimestamp (List.getLastD rest n0) = some t) :
    loadSummary [] = .error .emptyListing ∧
    loadSummary (n0 :: rest) = .error .zeroDuration := by
  refine ⟨rfl, ?_⟩
  simp only [loadSummary]
  rw [hlast, hfirst]
  simp

theorem load_summary_partial_holds :
    (frameTimestamp ['1', '-', '5', '.', 'p', 'n', 'g'] = some 5 ∧
      frameTimestamp (List.getLastD [] ['1', '-', '5', '.', 'p', 'n', 'g']) = some 5) ∧
    (loadSummary [] = .error .emptyListing ∧
      loadSummary [['1', '-', '5', '.', 'p', 'n', 'g']] = .error .zeroDuration) :=
  ⟨⟨by decide, by decide⟩,
    load_summary_partial ['1', '-', '5', '.', 'p', 'n', 'g'] [] 5 (by decide) (by decide)⟩

/-- C7 counterexample: duplicate detection is not read-only on the stored
state: `check_for_duplicates` re-reads `data.txt` into `self.data`, so
when the in-memory ledger differs from the file the in-memory ledger
changes.  Here the ledger in memory holds the row "o" while the file
holds "d". -/
theorem check_for_duplicates_mutates_ledger :
    (checkForDuplicatesRun (fun _ _ => 0) id false 0 0 0 0 2 [['d']]
        ⟨[], [], [['o']], 0, [], true⟩).data ≠
      (⟨[], [], [['o']], 0, [], true⟩ : AppState).data := by
  decide

/-- C7 amended: `check_for_duplicates` leaves the frame list, the
filename list and the index unchanged, but it overwrites the in-memory
ledger with the `data.txt` contents re-read from disk, stores the
candidate list in `self.duplicates`, and leaves the gate set. -/
theorem check_for_duplicates_state_effect (ssim : Grid → Grid → ℚ) (toGray : Grid → Grid)
    (reduced : Bool) (top bottom left right window : Nat)
    (diskData : List (List Char)) (s : AppState) :
    (checkForDuplicatesRun ssim toGray reduced top bottom left right window diskData s).names =
        s.names ∧
    (checkForDuplicatesRun ssim toGray reduced top bottom left right window diskData s).frames =
        s.frames ∧
    (checkForDuplicatesRun ssim toGray reduced top bottom left right window diskData s).index =
        s.index ∧
    (checkForDuplicatesRun ssim toGray reduced top bottom left right window diskData s).data =
        diskData ∧
    (checkForDuplicatesRun ssim toGray reduced top bottom left right window diskData s).duplicates =
        checkForDuplicates ssim toGray reduced top bottom left right window s.frames s.names ∧
    (checkForDuplicatesRun ssim toGray reduced top bottom left right window diskData s).enableOps =
        true :=
  ⟨rfl, rfl, rfl, rfl, rfl, rfl⟩

/-- C6 counterexample: a decoding failure on a single frame aborts the
whole load: with the middle file undecodable the loop raises there and
the remaining frame is never loaded — there is no per-file error
handling in `load_frames`. -/
theorem load_decode_failure_aborts :
    loadFramesLoop (fun n => if n = ['b'] then none else some [[7]]) [['a'], ['b'], ['c']] =
      .error ['b'] := rfl

/-- C6 amended: the load completes only when every frame decodes; the
first undecodable file raises an uncaught exception that aborts
`load_frames` at that file, so the frames after it are not loaded. -/
theorem load_frames_decode_behaviour (decode : List Char → Option Grid) :
    (∀ names : List (List Char), (∀ n ∈ names, (decode n).isSome) →
      ∃ gs, loadFramesLoop decode names = .ok gs ∧ gs.length = names.length) ∧
    (∀ pre : List (List Char), ∀ bad : List Char, ∀ post : List (List Char),
      decode bad = none → (∀ n ∈ pre, (decode n).isSome) →
      loadFramesLoop decode (pre ++ bad :: post) = .error bad) := by
  constructor
  · intro names h
    induction names with
    | nil => exact ⟨[], rfl, rfl⟩
    | cons n ns ih =>
      have hn : (decode n).isSome := h n (List.mem_cons_self n ns)
      obtain ⟨g, hg⟩ := Option.isSome_iff_exists.mp hn
      obtain ⟨gs, hgs, hlen⟩ := ih fun m hm => h m (List.mem_cons_of_mem n hm)
      refine ⟨g :: gs, ?_, by simp [hlen]⟩
      simp [loadFramesLoop, hg, hgs]
  · intro pre bad post hbad h
    induction pre with
    | nil => simp [loadFramesLoop, hbad]
    | cons n ns ih =>
      have hn : (decode n).isSome := h n (List.mem_cons_self n ns)
      obtain ⟨g, hg⟩ := Option.isSome_iff_exists.mp hn
      have := ih fun m hm => h m (List.mem_cons_of_mem n hm)
      simp [loadFramesLoop, hg, this]

theorem load_frames_decode_behaviour_holds :
    ((fun n => if n = ['b'] then none else some [[7]] : List Char → Option Grid) ['b'] = none) ∧
    loadFramesLoop (fun n => if n = ['b'] then none else some [[7]]) ([['a']] ++ ['b'] :: [['c']]) =
      .error ['b'] :=
  ⟨by decide,
    (load_frames_decode_behaviour (fun n => if n = ['b'] then none else some [[7]])).2
      [['a']] ['b'] [['c']] (by decide) (by decide)⟩

/-- C4 counterexample: `clip_frames` invoked with frames loaded but an
unparsable ROI input reaches its terminal state (the blanket handler
prints a note and the gate is restored) without ever reloading the Frame
Store — the in-memory view is not resynchronised on the failure path. -/
theorem clip_failure_skips_reload :
    clipFramesTrace true none 3 = [Ev.gateOff, Ev.errorNote, Ev.gateOn] ∧
    Ev.reload ∉ clipFramesTrace true none 3 := by
  decide

/-- C4 amended: the Frame Store reload runs on the success paths only:
always at the end of a `remove_duplicates` run that raises no exception,
in `clip_frames` exactly when frames are loaded and the four ROI inputs
parse, and in `flip` exactly when the name list is non-empty; when a
deletion raises, `remove_duplicates` aborts without reloading. -/
theorem reload_after_mutations (dups : List (List Char × List Char))
    (disk data disk2 data2 : List (List Char)) (hasFrames : Bool)
    (ints : Option (Nat × Nat × Nat × Nat)) (n m : Nat)
    (hdel : deletePhase dups disk data = some (disk2, data2)) :
    Ev.reload ∈ removeDuplicatesTrace dups disk data ∧
    (∀ dups2 dk dt, deletePhase dups2 dk dt = none →
      Ev.reload ∉ removeDuplicatesTrace dups2 dk dt) ∧
    (Ev.reload ∈ clipFramesTrace hasFrames ints n ↔ hasFrames = true ∧ ints.isSome = true) ∧
    (Ev.reload ∈ flipTrace m ↔ 0 < m) := by
  refine ⟨?_, ?_, ?_, ?_⟩
  · simp only [removeDuplicatesTrace, hdel, loadFramesTrace]
    simp
  · intro dups2 dk dt h
    simp [removeDuplicatesTrace, h]
  · cases hasFrames with
    | false => simp [clipFramesTrace]
    | true =>
      cases ints with
      | none => simp [clipFramesTrace]
      | some r => simp [clipFramesTrace, loadFramesTrace, List.mem_replicate]
  · by_cases hm : 0 < m
    · simp [flipTrace, loadFramesTrace, List.mem_replicate, hm]
    · simp [flipTrace, hm]

theorem reload_after_mutations_holds :
    deletePhase [] [] [] = some ([], []) ∧
    Ev.reload ∈ removeDuplicatesTrace [] [] [] :=
  ⟨rfl, (reload_after_mutations [] [] [] [] [] true none 0 0 rfl).1⟩

/-- C8 counterexample: in `remove_duplicates` the operations gate is
restored (line 346) before the Frame Store reload (line 347): on a
successful run with a non-empty candidate list, the first `gateOn` in
the trace precedes the first `reload`, so the gate is not "restored only
after the Frame Store has resynchronised". -/
theorem gate_restored_before_reload :
    removeDuplicatesTrace [(['a'], ['b'])] [] [] =
      [Ev.gateOff, Ev.writeLedger, Ev.gateOn, Ev.reload, Ev.gateOn] ∧
    List.indexOf Ev.gateOn (removeDuplicatesTrace [(['a'], ['b'])] [] []) <
      List.indexOf Ev.reload (removeDuplicatesTrace [(['a'], ['b'])] [] []) := by
  decide

/-- C8 amended: every mutating operation clears the gate as its first
action, and while the gate is cleared the event loop dispatches no
mutating entry point; but `remove_duplicates` restores the gate
immediately before (not after) the reload — which then sets it again —
and when a deletion raises, the method stops right away and the gate is
never restored. -/
theorem operations_gate_behaviour (dups : List (List Char × List Char))
    (disk data disk2 data2 : List (List Char)) (hasFrames : Bool)
    (ints : Option (Nat × Nat × Nat × Nat)) (n m k : Nat) (ev : UiEvent)
    (hdel : deletePhase dups disk data = some (disk2, data2)) :
    ((removeDuplicatesTrace dups disk data).head? = some Ev.gateOff ∧
      (clipFramesTrace hasFrames ints n).head? = some Ev.gateOff ∧
      (flipTrace m).head? = some Ev.gateOff) ∧
    (∃ pre, removeDuplicatesTrace dups disk data = pre ++ [Ev.gateOn, Ev.reload, Ev.gateOn]) ∧
    (∀ dups2 dk dt, deletePhase dups2 dk dt = none →
      removeDuplicatesTrace dups2 dk dt = [Ev.gateOff]) ∧
    (isMutating ev = true → dispatchAllowed false k ev = false) := by
  refine ⟨⟨rfl, rfl, rfl⟩, ?_, ?_, ?_⟩
  · refine ⟨Ev.gateOff :: (if dups.isEmpty then [] else
      List.replicate (disk.length - disk2.length) Ev.deleteFile ++
        List.replicate disk2.length Ev.renameFile ++ [Ev.writeLedger]), ?_⟩
    simp [removeDuplicatesTrace, hdel, loadFramesTrace]
  · intro dups2 dk dt h
    simp [removeDuplicatesTrace, h]
  · intro _
    cases ev <;> simp_all [isMutating, dispatchAllowed]

theorem operations_gate_behaviour_holds :
    deletePhase [(['a'], ['b'])] [] [] = some ([], []) ∧
    (removeDuplicatesTrace [(['a'], ['b'])] [] []).head? = some Ev.gateOff :=
  ⟨by decide,
    (operations_gate_behaviour [(['a'], ['b'])] [] [] [] [] true none 0 0 0 UiEvent.flipBtn
      (by decide)).1.1⟩

/-- Files not named in the clipping loop keep their contents. -/
theorem clipFramesDisk_not_mem (top bottom left right : Nat) (names : List (List Char))
    (disk : List Char → Grid) (name : List Char) (h : name ∉ names) :
    clipFramesDisk top bottom left right names disk name = disk name := by
  induction names generalizing disk with
  | nil => rfl
  | cons n ns ih =>
    have hne : name ≠ n := fun hc => h (hc ▸ List.mem_cons_self n ns)
    have hns : name ∉ ns := fun hc => h (List.mem_cons_of_mem n hc)
    simp only [clipFramesDisk]
    rw [ih _ hns, Function.update_noteq hne]

/-- An empty vertical range slices every image to the empty grid. -/
theorem npSlice_of_le (top bottom left right : Nat) (g : Grid) (h : bottom ≤ top) :
    npSlice top bottom left right g = [] := by
  simp [npSlice, Nat.sub_eq_zero_of_le h]

/-- C5 counterexample: `clip_frames` performs no ROI validation: invoked
with top = 2 >= bottom = 1 it overwrites the frame file with the empty
slice (the contents change, so the disk is not byte-identical), and the
operation's trace carries no error of any kind. -/
theorem clip_inverted_roi_overwrites :
    clipFramesDisk 2 1 0 2 [['f']] (fun _ => [[1, 2], [3, 4]]) ['f'] ≠ [[1, 2], [3, 4]] ∧
    Ev.errorNote ∉ clipFramesTrace true (some (2, 1, 0, 2)) 1 := by
  decide

/-- C5 amended: an ROI with top >= bottom is not rejected: no
`ValidationError` exists on this path, the loop runs to completion with
no error note, and every frame file named in the frame set is
overwritten in place with the empty crop. -/
theorem clip_inverted_roi_effect (top bottom left right : Nat) (names : List (List Char))
    (disk : List Char → Grid) (hbt : bottom ≤ top) :
    (∀ name ∈ names, clipFramesDisk top bottom left right names disk name = []) ∧
    Ev.errorNote ∉ clipFramesTrace true (some (top, bottom, left, right)) names.length ∧
    Ev.gateOn ∈ clipFramesTrace true (some (top, bottom, left, right)) names.length := by
  refine ⟨?_, ?_, ?_⟩
  · intro name hmem
    induction names generalizing disk with
    | nil => cases hmem
    | cons n ns ih =>
      simp only [clipFramesDisk]
      by_cases hns : name ∈ ns
      · exact ih _ hns
      · have hn : name = n := by
          rcases List.mem_cons.mp hmem with h | h
          · exact h
          · exact absurd h hns
        subst hn
        rw [clipFramesDisk_not_mem _ _ _ _ _ _ _ hns, Function.update_same,
          npSlice_of_le _ _ _ _ _ hbt]
  · simp [clipFramesTrace, loadFramesTrace, List.mem_replicate]
  · simp [clipFramesTrace, loadFramesTrace]

theorem clip_inverted_roi_effect_holds :
    1 ≤ 2 ∧ clipFramesDisk 2 1 0 2 [['f']] (fun _ => [[5]]) ['f'] = [] :=
  ⟨by decide,
    (clip_inverted_roi_effect 2 1 0 2 [['f']] (fun _ => [[5]]) (by decide)).1 ['f']
      (by decide)⟩

/-- C3 counterexample: the deletion loop of `remove_duplicates` matches a
ledger row against the later filename by comparing the row's field before
the first comma with the filename's whole stem before the first dot
("2-99" here), not with the sequence token ("2"); with the ledger row
"2,d" — whose identifier field is exactly the sequence token — nothing
matches, and the operation neither raises any error nor deletes the
file: it completes leaving disk and ledger untouched, silently skipping
the candidate. -/
theorem remove_duplicates_skips_unmatched :
    deletePhase [(['1', '-', '5', '.', 'p', 'n', 'g'], ['2', '-', '9', '9', '.', 'p', 'n', 'g'])]
        [['1', '-', '5', '.', 'p', 'n', 'g'], ['2', '-', '9', '9', '.', 'p', 'n', 'g']]
        [['2', ',', 'd']] =
      some ([['1', '-', '5', '.', 'p', 'n', 'g'], ['2', '-', '9', '9', '.', 'p', 'n', 'g']],
        [['2', ',', 'd']]) := by
  decide

/-- C3 amended: for each duplicate candidate the row to delete is the
first ledger row whose field before the first comma equals the later
filename's stem (everything before the first dot, i.e. the
sequence-dash-timestamp token, not the sequence token alone); when no
row matches, the candidate is silently skipped with no error and no file
deletion; when a row matches, that first match is used and the file and
the row are removed together — the only failure is the `os.remove` call
on a file that is already absent. -/
theorem process_duplicate_matching (a b : List Char) (disk data : List (List Char)) :
    (data.find? (fun row => decide (split1Before ',' row = split1Before '.' b)) = none →
      processDuplicate (a, b) disk data = some (disk, data)) ∧
    (∀ row, data.find? (fun row => decide (split1Before ',' row = split1Before '.' b)) =
        some row →
      split1Before ',' row = split1Before '.' b ∧
      (b ∈ disk → processDuplicate (a, b) disk data = some (disk.erase b, data.erase row)) ∧
      (b ∉ disk → processDuplicate (a, b) disk data = none)) := by
  constructor
  · intro h
    simp [processDuplicate, h]
  · intro row hrow
    refine ⟨?_, ?_, ?_⟩
    · have hp := List.find?_some hrow
      exact of_decide_eq_true hp
    · intro hb
      simp [processDuplicate, hrow, hb]
    · intro hb
      simp [processDuplicate, hrow, hb]

theorem process_duplicate_matching_holds :
    ([['1', '-', '5', ',', 'd']].find?
        (fun row => decide (split1Before ',' row =
          split1Before '.' ['1', '-', '5', '.', 'p', 'n', 'g'])) =
      some ['1', '-', '5', ',', 'd']) ∧
    processDuplicate (['x'], ['1', '-', '5', '.', 'p', 'n', 'g'])
        [['1', '-', '5', '.', 'p', 'n', 'g']] [['1', '-', '5', ',', 'd']] =
      some ([], []) :=
  ⟨by decide,
    ((process_duplicate_matching ['x'] ['1', '-', '5', '.', 'p', 'n', 'g']
          [['1', '-', '5', '.', 'p', 'n', 'g']] [['1', '-', '5', ',', 'd']]).2
        ['1', '-', '5', ',', 'd'] (by decide)).2.1 (by decide)⟩

/-- The inner scan returns nothing once every remaining index is past the
end of the name list. -/
theorem findDupInner_none (score : Nat → Nat → ℚ) (nNames i : Nat) (js : List Nat)
    (h : ∀ x ∈ js, nNames ≤ x) : findDupInner score nNames i js = none := by
  induction js with
  | nil => rfl
  | cons j js ih =>
    have hj : nNames ≤ j := h j (List.mem_cons_self _ _)
    simp only [findDupInner]
    rw [if_neg (by omega)]
    exact ih fun x hx => h x (List.mem_cons_of_mem _ hx)

/-- Characterisation of the inner scan over an index interval: it returns
exactly the earliest in-range index whose score is exactly 1. -/
theorem findDupInner_range'_iff (score : Nat → Nat → ℚ) (nNames i : Nat) :
    ∀ (w start j : Nat),
      (findDupInner score nNames i (List.range' start w) = some j ↔
        (start ≤ j ∧ j < start + w ∧ j < nNames ∧ score i j = 1 ∧
          ∀ k, start ≤ k → k < j → score i k ≠ 1)) := by
  intro w
  induction w with
  | zero =>
    intro start j
    constructor
    · intro h
      cases h
    · rintro ⟨h1, h2, _⟩
      omega
  | succ w ih =>
    intro start j
    rw [List.range'_succ]
    simp only [findDupInner]
    by_cases hs : start < nNames
    · rw [if_pos hs]
      by_cases hsc : score i start = 1
      · rw [if_pos hsc]
        constructor
        · intro h
          cases h
          exact ⟨Nat.le_refl _, by omega, hs, hsc, fun k hk1 hk2 => by omega⟩
        · rintro ⟨h1, h2, h3, h4, h5⟩
          by_cases hj : j = start
          · subst hj
            rfl
          · exact absurd hsc (h5 start (Nat.le_refl _) (by omega))
      · rw [if_neg hsc]
        rw [ih (start + 1) j]
        constructor
        · rintro ⟨h1, h2, h3, h4, h5⟩
          refine ⟨by omega, by omega, h3, h4, fun k hk1 hk2 => ?_⟩
          rcases Nat.eq_or_lt_of_le hk1 with rfl | hlt
          · exact hsc
          · exact h5 k (by omega) hk2
        · rintro ⟨h1, h2, h3, h4, h5⟩
          refine ⟨?_, by omega, h3, h4, fun k hk1 hk2 => h5 k (by omega) hk2⟩
          rcases Nat.eq_or_lt_of_le h1 with rfl | hlt
          · exact absurd h4 hsc
          · omega
    · rw [if_neg hs]
      have hnone : findDupInner score nNames i (List.range' (start + 1) w) = none := by
        apply findDupInner_none
        intro x hx
        have := List.mem_range'_1.mp hx
        omega
      rw [hnone]
      constructor
      · intro h
        cases h
      · rintro ⟨h1, h2, h3, _⟩
        omega

/-- Pointwise-equal list functions produce the same flattened output. -/
theorem flatMap_eq_of_forall_eq {α β : Type} (l : List α) (f g : α → List β)
    (h : ∀ a ∈ l, f a = g a) : l.flatMap f = l.flatMap g := by
  induction l with
  | nil => rfl
  | cons a l ih =>
    simp only [List.flatMap_cons]
    rw [h a (List.mem_cons_self _ _), ih fun x hx => h x (List.mem_cons_of_mem _ hx)]

/-- Appending zero-or-one-element blocks is a filterMap. -/
theorem flatMap_toList_eq_filterMap {α β : Type} (l : List α) (g : α → Option β) :
    (l.flatMap fun a => (g a).toList) = l.filterMap g := by
  induction l with
  | nil => rfl
  | cons a l ih =>
    rw [List.flatMap_cons, List.filterMap_cons, ih]
    cases hga : g a <;> rfl

/-- The per-frame append of a zero-or-one element block is a filterMap:
at most one candidate is recorded per source frame. -/
theorem dupScan_eq_filterMap (score : Nat → Nat → ℚ) (w : Nat) (frames : List Grid)
    (names : List (List Char)) :
    dupScan score w frames names =
      (List.range (frames.length - 1)).filterMap fun i =>
        (findDupInner score names.length i (List.range' (i + 1) w)).map
          fun j => (names.getD i [], names.getD j []) := by
  unfold dupScan
  have hbody : (fun i =>
      match findDupInner score names.length i (List.range' (i + 1) w) with
      | some j => [(names.getD i [], names.getD j [])]
      | none => []) =
      fun i =>
        ((findDupInner score names.length i (List.range' (i + 1) w)).map
          fun j => (names.getD i [], names.getD j [])).toList := by
    funext i
    cases findDupInner score names.length i (List.range' (i + 1) w) <;> rfl
  rw [hbody]
  exact flatMap_toList_eq_filterMap (List.range (frames.length - 1))
    fun i =>
      (findDupInner score names.length i (List.range' (i + 1) w)).map
        fun j => (names.getD i [], names.getD j [])

/-- The inner scan only consults the score on the indices it visits. -/
theorem findDupInner_congr (score score2 : Nat → Nat → ℚ) (nNames i : Nat) (js : List Nat)
    (h : ∀ j ∈ js, score2 i j = score i j) :
    findDupInner score2 nNames i js = findDupInner score nNames i js := by
  induction js with
  | nil => rfl
  | cons j js ih =>
    simp only [findDupInner]
    rw [h j (List.mem_cons_self _ _), ih fun x hx => h x (List.mem_cons_of_mem _ hx)]

/-- The scan never consults the score on a pair more than `w` apart: any
score function agreeing inside the look-ahead window gives the same
candidate list. -/
theorem dupScan_congr (score score2 : Nat → Nat → ℚ) (w : Nat) (frames : List Grid)
    (names : List (List Char))
    (h : ∀ i j, i < j → j ≤ i + w → score2 i j = score i j) :
    dupScan score2 w frames names = dupScan score w frames names := by
  unfold dupScan
  refine flatMap_eq_of_forall_eq _ _ _ fun i _ => ?_
  rw [findDupInner_congr score score2 names.length i _ fun j hj => ?_]
  have := List.mem_range'_1.mp hj
  exact h i j (by omega) (by omega)

/-- C2: for every frame sequence and window `w`, the detector records the
pair `(name_i, name_j)` exactly when `j` is the earliest index in
`i+1 .. i+w` (bounded by the list length) whose structural-similarity
score against frame `i` — with the same optional ROI restriction applied
to both frames — is exactly 1; the inner scan stops at the first match,
so at most one candidate is recorded per source frame (the filterMap
form), and any score agreeing inside the window yields the same result,
so frames more than `w` apart are never compared. -/
theorem check_for_duplicates_spec (ssim : Grid → Grid → ℚ) (toGray : Grid → Grid)
    (reduced : Bool) (top bottom left right window : Nat) (frames : List Grid)
    (names : List (List Char)) :
    (checkForDuplicates ssim toGray reduced top bottom left right window frames names =
      (List.range (frames.length - 1)).filterMap fun i =>
        (findDupInner (frameScore ssim toGray reduced top bottom left right frames)
            names.length i (List.range' (i + 1) window)).map
          fun j => (names.getD i [], names.getD j [])) ∧
    (∀ i j,
      findDupInner (frameScore ssim toGray reduced top bottom left right frames)
          names.length i (List.range' (i + 1) window) = some j ↔
        (i < j ∧ j ≤ i + window ∧ j < names.length ∧
          frameScore ssim toGray reduced top bottom left right frames i j = 1 ∧
          ∀ k, i < k → k < j →
            frameScore ssim toGray reduced top bottom left right frames i k ≠ 1)) ∧
    (∀ score2 : Nat → Nat → ℚ,
      (∀ i j, i < j → j ≤ i + window →
        score2 i j = frameScore ssim toGray reduced top bottom left right frames i j) →
      dupScan score2 window frames names =
        checkForDuplicates ssim toGray reduced top bottom left right window frames names) := by
  refine ⟨dupScan_eq_filterMap _ _ _ _, ?_, ?_⟩
  · intro i j
    rw [findDupInner_range'_iff]
    constructor
    · rintro ⟨h1, h2, h3, h4, h5⟩
      exact ⟨by omega, by omega, h3, h4, fun k hk1 hk2 => h5 k (by omega) hk2⟩
    · rintro ⟨h1, h2, h3, h4, h5⟩
      exact ⟨by omega, by omega, h3, h4, fun k hk1 hk2 => h5 k (by omega) hk2⟩
  · intro score2 h
    exact dupScan_congr _ score2 window frames names h

theorem check_for_duplicates_spec_holds :
    findDupInner
        (frameScore (fun g h => if g = h then 1 else 0) id false 0 0 0 0 [[[1]], [[1]], [[2]]])
        3 0 (List.range' 1 2) =
      some 1 :=
  ((check_for_duplicates_spec (fun g h => if g = h then 1 else 0) id false 0 0 0 0 2
        [[[1]], [[1]], [[2]]] [['1'], ['2'], ['3']]).2.1 0 1).mpr
    ⟨by decide, by decide, by decide, by decide, fun k hk1 hk2 => absurd hk2 (by omega)⟩

/-- Digit characters are never the dash separator. -/
theorem natDigitChar_ne_dash (d : Nat) : natDigitChar d ≠ '-' := by
  unfold natDigitChar
  split <;> decide

/-- Every character produced by the digit-rendering core is a digit
character (or came from the accumulator). -/
theorem mem_natDigitsCore (fuel : Nat) :
    ∀ (n : Nat) (acc : List Char) (ch : Char), ch ∈ natDigitsCore fuel n acc →
      ch ∈ acc ∨ ∃ d, ch = natDigitChar d := by
  induction fuel with
  | zero => exact fun n acc ch h => Or.inl h
  | succ fuel ih =>
    intro n acc ch h
    simp only [natDigitsCore] at h
    split at h
    · rcases List.mem_cons.mp h with rfl | hacc
      · exact Or.inr ⟨n, rfl⟩
      · exact Or.inl hacc
    · rcases ih _ _ _ h with hacc | hd
      · rcases List.mem_cons.mp hacc with rfl | hacc2
        · exact Or.inr ⟨n % 10, rfl⟩
        · exact Or.inl hacc2
      · exact Or.inr hd

/-- The decimal rendering of a counter never contains a dash, so the
rebuilt `"{i}-{rest}"` names and rows split back at the dash the rebuild
inserted. -/
theorem natDigits_ne_dash (n : Nat) : '-' ∉ natDigits n := by
  intro h
  rcases mem_natDigitsCore _ _ _ _ h with hacc | ⟨d, hd⟩
  · cases hacc
  · exact natDigitChar_ne_dash d hd.symm

/-- Splitting before the first `c` recovers a `c`-free prefix. -/
theorem split1Before_append (c : Char) (xs ys : List Char) (h : c ∉ xs) :
    split1Before c (xs ++ c :: ys) = xs := by
  induction xs with
  | nil => simp [split1Before]
  | cons a xs ih =>
    have ha : a ≠ c := fun hc => h (hc ▸ List.mem_cons_self _ _)
    simp only [List.cons_append, split1Before, if_neg ha]
    exact congrArg (List.cons a) (ih fun hc => h (List.mem_cons_of_mem _ hc))

/-- Splitting after the first `c` recovers the tail past a `c`-free
prefix. -/
theorem split1After_append (c : Char) (xs ys : List Char) (h : c ∉ xs) :
    split1After c (xs ++ c :: ys) = some ys := by
  induction xs with
  | nil => simp [split1After]
  | cons a xs ih =>
    have ha : a ≠ c := fun hc => h (hc ▸ List.mem_cons_self _ _)
    simp only [List.cons_append, split1After, if_neg ha]
    exact ih fun hc => h (List.mem_cons_of_mem _ hc)

/-- Shape of a successful renumbering pass: it preserves the length, and
the k-th output entry is the counter `i + k` rendered in decimal, a
dash, and everything after the k-th input entry's first dash. -/
theorem renumberFrom_spec (xs : List (List Char)) :
    ∀ (i : Nat) (ys : List (List Char)), renumberFrom i xs = some ys →
      ys.length = xs.length ∧
      ∀ k (hk : k < xs.length) (hk2 : k < ys.length),
        ∃ rest, split1After '-' (xs.get ⟨k, hk⟩) = some rest ∧
          ys.get ⟨k, hk2⟩ = natDigits (i + k) ++ '-' :: rest := by
  induction xs with
  | nil =>
    intro i ys h
    obtain rfl : ys = [] := by simpa [renumberFrom] using h.symm
    exact ⟨rfl, fun k hk _ => absurd hk (Nat.not_lt_zero k)⟩
  | cons x xs ih =>
    intro i ys h
    simp only [renumberFrom] at h
    cases hx : split1After '-' x with
    | none => rw [hx] at h; cases h
    | some rest =>
      rw [hx] at h
      cases hr : renumberFrom (i + 1) xs with
      | none => rw [hr] at h; cases h
      | some zs =>
        rw [hr] at h
        obtain rfl : ys = (natDigits i ++ '-' :: rest) :: zs := by
          cases h; rfl
        obtain ⟨hlen, hget⟩ := ih (i + 1) zs hr
        refine ⟨by simp [hlen], ?_⟩
        intro k hk hk2
        cases k with
        | zero => exact ⟨rest, hx, by simp⟩
        | succ k =>
          have hk' : k < xs.length := by
            simp only [List.length_cons] at hk
            omega
          have hk2' : k < zs.length := by
            simp only [List.length_cons] at hk2
            omega
          obtain ⟨r2, h1, h2⟩ := hget k hk' hk2'
          refine ⟨r2, by simpa using h1, ?_⟩
          have harith : i + 1 + k = i + (k + 1) := by omega
          simpa [harith] using h2

/-- One deletion step removes a file and a ledger row together (or
nothing at all), so it keeps the two counts in step. -/
theorem processDuplicate_length (d : List Char × List Char)
    (disk data disk2 data2 : List (List Char))
    (h : processDuplicate d disk data = some (disk2, data2))
    (hlen : data.length = disk.length) : data2.length = disk2.length := by
  unfold processDuplicate at h
  split at h
  · obtain ⟨rfl, rfl⟩ : disk = disk2 ∧ data = data2 := by simpa using h
    exact hlen
  · rename_i row hf
    split at h
    · rename_i hb
      obtain ⟨rfl, rfl⟩ : disk.erase d.2 = disk2 ∧ data.erase row = data2 := by simpa using h
      have hrow : row ∈ data := List.mem_of_find?_eq_some hf
      rw [List.length_erase_of_mem hrow, List.length_erase_of_mem hb, hlen]
    · cases h

/-- The whole deletion phase keeps ledger-row count equal to file
count. -/
theorem deletePhase_length (dups : List (List Char × List Char)) :
    ∀ disk data disk2 data2, deletePhase dups disk data = some (disk2, data2) →
      data.length = disk.length → data2.length = disk2.length := by
  induction dups with
  | nil =>
    intro disk data disk2 data2 h hlen
    obtain ⟨rfl, rfl⟩ : disk = disk2 ∧ data = data2 := by simpa [deletePhase] using h
    exact hlen
  | cons d ds ih =>
    intro disk data disk2 data2 h hlen
    simp only [deletePhase] at h
    cases hp : processDuplicate d disk data with
    | none => rw [hp] at h; cases h
    | some p =>
      obtain ⟨diskb, datab⟩ := p
      rw [hp] at h
      exact ih _ _ _ _ h (processDuplicate_length d disk data _ _ hp hlen)

/-- C1: after a `remove_duplicates` run that completes (the deletion
phase in which every processed candidate either matched a row with its
file present, or matched nothing, raised no exception, and every
remaining name and row carries a dash so the renumbering pass
completes), the renumbering re-establishes the invariant: starting from
a ledger with one row per file, the k-th remaining file's sequence token
before the first dash is exactly the decimal of k+1 with the original
suffix after the dash (the timestamp) preserved, the k-th ledger row's
leading identifier is likewise exactly the decimal of k+1 with the rest
of the row preserved verbatim, and the rewritten ledger has exactly one
row per remaining file — no gaps and no duplicated sequence numbers. -/
theorem remove_duplicates_restores_invariant (dups : List (List Char × List Char))
    (disk data disk2 data2 newNames newData : List (List Char))
    (hlen : data.length = disk.length)
    (hdel : deletePhase dups disk data = some (disk2, data2))
    (hnames : renumberFrom 1 disk2 = some newNames)
    (hrows : renumberFrom 1 data2 = some newData) :
    newData.length = newNames.length ∧
    (∀ k (hk : k < newNames.length) (hk2 : k < disk2.length),
      split1Before '-' (newNames.get ⟨k, hk⟩) = natDigits (k + 1) ∧
      split1After '-' (newNames.get ⟨k, hk⟩) = split1After '-' (disk2.get ⟨k, hk2⟩)) ∧
    (∀ k (hk : k < newData.length) (hk2 : k < data2.length),
      split1Before '-' (newData.get ⟨k, hk⟩) = natDigits (k + 1) ∧
      split1After '-' (newData.get ⟨k, hk⟩) = split1After '-' (data2.get ⟨k, hk2⟩)) := by
  have hlen2 : data2.length = disk2.length :=
    deletePhase_length dups disk data disk2 data2 hdel hlen
  obtain ⟨hlenN, hgetN⟩ := renumberFrom_spec disk2 1 newNames hnames
  obtain ⟨hlenD, hgetD⟩ := renumberFrom_spec data2 1 newData hrows
  refine ⟨by rw [hlenD, hlenN, hlen2], ?_, ?_⟩
  · intro k hk hk2
    obtain ⟨rest, h1, h2⟩ := hgetN k hk2 hk
    constructor
    · rw [h2, Nat.add_comm 1 k]
      exact split1Before_append '-' _ rest (natDigits_ne_dash _)
    · rw [h2, split1After_append '-' _ rest (natDigits_ne_dash _), h1]
  · intro k hk hk2
    obtain ⟨rest, h1, h2⟩ := hgetD k hk2 hk
    constructor
    · rw [h2, Nat.add_comm 1 k]
      exact split1Before_append '-' _ rest (natDigits_ne_dash _)
    · rw [h2, split1After_append '-' _ rest (natDigits_ne_dash _), h1]

theorem remove_duplicates_restores_invariant_holds :
    ([['1', '-', '5', ',', 'a'], ['2', '-', '9', ',', 'b']].length =
        [['1', '-', '5', '.', 'p', 'n', 'g'], ['2', '-', '9', '.', 'p', 'n', 'g']].length ∧
      deletePhase
          [(['1', '-', '5', '.', 'p', 'n', 'g'], ['2', '-', '9', '.', 'p', 'n', 'g'])]
          [['1', '-', '5', '.', 'p', 'n', 'g'], ['2', '-', '9', '.', 'p', 'n', 'g']]
          [['1', '-', '5', ',', 'a'], ['2', '-', '9', ',', 'b']] =
        some ([['1', '-', '5', '.', 'p', 'n', 'g']], [['1', '-', '5', ',', 'a']]) ∧
      renumberFrom 1 [['1', '-', '5', '.', 'p', 'n', 'g']] =
        some [['1', '-', '5', '.', 'p', 'n', 'g']] ∧
      renumberFrom 1 [['1', '-', '5', ',', 'a']] = some [['1', '-', '5', ',', 'a']]) ∧
    [['1', '-', '5', ',', 'a']].length = [['1', '-', '5', '.', 'p', 'n', 'g']].length :=
  ⟨⟨by decide, by decide, by decide, by decide⟩,
    (remove_duplicates_restores_invariant
        [(['1', '-', '5', '.', 'p', 'n', 'g'], ['2', '-', '9', '.', 'p', 'n', 'g'])]
        [['1', '-', '5', '.', 'p', 'n', 'g'], ['2', '-', '9', '.', 'p', 'n', 'g']]
        [['1', '-', '5', ',', 'a'], ['2', '-', '9', ',', 'b']]
        [['1', '-', '5', '.', 'p', 'n', 'g']] [['1', '-', '5', ',', 'a']]
        [['1', '-', '5', '.', 'p', 'n', 'g']] [['1', '-', '5', ',', 'a']]
        (by decide) (by decide) (by decide) (by decide)).1⟩
